import Mathlib

/-!
Verification of the documentation-drift detection engine of the
jaggers-agent-tools repository.

The Python sources embedded here (shallowly) are:
* `skills/documenting/scripts/drift_detector.py` — glob ownership matching
  (`_match_glob`, embedded as `matchGlob`), file-to-territory matching
  (`match_files_to_tracks`), frontmatter extraction (`extract_frontmatter`),
  git change-set queries (`get_recent_modified_files`,
  `get_session_written_files`), the staleness scan (`scan_memories`) and the
  exit-code behaviour of the `scan` and `check` subcommands.
* The registry-based mtime staleness engine and the protected-region merger
  are described by the specification but their source files are not part of
  the analysed tree (the hook installer references them by path only); those
  two components are modelled from the spec, as marked on their definitions.

Python strings are modelled as Lean `String` at the interfaces, with the
string algorithms carried out on `List Char` by structural recursion (a
`Nat` fuel argument replaces the two well-founded recursions, chosen so
that the fuel can never run out); file-modification instants are `Nat`,
subprocess invocations are `Except` values, and the PyYAML parser is an
explicit function parameter.
-/

namespace DriftDetector

/-! ## Python string helpers -/

/-- The characters Python `str.strip()` removes at either end (the ASCII
whitespace set; the repository only feeds git output, where Python's wider
unicode set makes no difference). -/
def isPyWhitespace (c : Char) : Bool :=
  c = ' ' || c = '\t' || c = '\n' || c = '\r' || c = '\x0b' || c = '\x0c'

/-- Model of Python `str.strip()`. -/
def pyStrip (s : String) : String :=
  ⟨((s.data.dropWhile isPyWhitespace).reverse.dropWhile isPyWhitespace).reverse⟩

/-- Python `s.split(sep)` for a one-character separator: splitting the
empty string yields one empty field, and separators at the ends yield empty
fields. -/
def splitOnChar (sep : Char) : List Char → List (List Char)
  | [] => [[]]
  | c :: rest =>
    match splitOnChar sep rest with
    | [] => [[]]
    | g :: gs => if c = sep then [] :: g :: gs else (c :: g) :: gs

/-- Newline normalisation underlying `str.splitlines()`: `\r\n` and a lone
`\r` both count as one line break. -/
def normNewlines : List Char → List Char
  | [] => []
  | '\r' :: '\n' :: rest => '\n' :: normNewlines rest
  | '\r' :: rest => '\n' :: normNewlines rest
  | c :: rest => c :: normNewlines rest

/-- Model of Python `str.splitlines()` for `\n`/`\r\n`/`\r` line breaks:
the empty string yields no lines and a trailing terminator does not produce
a trailing empty line. -/
def splitlines (s : String) : List String :=
  match s.data with
  | [] => []
  | l =>
    let parts := splitOnChar '\n' (normNewlines l)
    let parts := if parts.getLast? = some [] then parts.dropLast else parts
    parts.map (fun g => ⟨g⟩)

/-- The leading-slash components `PurePosixPath` keeps: one empty component
per retained leading slash (an exactly-double leading slash is retained,
any other run collapses to one). -/
def posixRoot : List Char → List (List Char)
  | '/' :: '/' :: '/' :: _ => [[]]
  | '/' :: '/' :: _ => [[], []]
  | '/' :: _ => [[]]
  | _ => []

/-- Components of `PurePosixPath(s).as_posix().split("/")`: empty and `"."`
components are dropped, a purely relative empty path collapses to `["."]`,
and absolute paths keep their root components. -/
def posixPartsL (l : List Char) : List (List Char) :=
  let comps := (splitOnChar '/' l).filter (fun c => !(c.isEmpty || c = ['.']))
  match posixRoot l with
  | [] => if comps.isEmpty then [['.']] else comps
  | root => if comps.isEmpty then root ++ [[]] else root ++ comps

/-! ## `fnmatch.fnmatch` embedding

`drift_detector._match_glob` delegates single-segment matching to Python's
`fnmatch.fnmatch`, which compiles the glob to a regular expression via
`fnmatch.translate` (on POSIX `os.path.normcase` is the identity, so
matching is case sensitive).  The compilation step is embedded as
`compileGlob` producing a token list, and `toksMatch` is the backtracking
matcher for the compiled form. -/

/-- One compiled glob token: `*`, `?`, a literal character, or a character
class `[...]` with its negation flag and raw member chunk. -/
inductive GlobTok where
  | star : GlobTok
  | qmark : GlobTok
  | lit : Char → GlobTok
  | cls : Bool → List Char → GlobTok
deriving Repr, DecidableEq

/-- Split a character list at the first `]`, returning the chunk before it
and the remainder after it (`fnmatch.translate`'s scan for the closing
bracket of a character class). -/
def findClose : List Char → Option (List Char × List Char)
  | [] => none
  | c :: rest =>
    if c = ']' then some ([], rest)
    else (findClose rest).map (fun p => (c :: p.1, p.2))

theorem findClose_rest_lt : ∀ {l : List Char} {p : List Char × List Char},
    findClose l = some p → p.2.length < l.length := by
  intro l
  induction l with
  | nil => intro p h; simp [findClose] at h
  | cons c rest ih =>
    intro p h
    unfold findClose at h
    split at h
    · simp only [Option.some.injEq] at h
      subst h
      simp
    · rcases Option.map_eq_some'.mp h with ⟨q, hq, rfl⟩
      have := ih hq
      simp only [List.length_cons]
      omega

/-- The character-class splitter of `fnmatch.translate`'s `[` case: a
leading `!` negates, a `]` directly after the opening (or after the `!`) is
a literal member, the chunk then runs to the next `]`; `none` when the
class is unterminated. -/
def classSplit : List Char → Option (Bool × List Char × List Char)
  | '!' :: ']' :: t => (findClose t).map (fun p => (true, ']' :: p.1, p.2))
  | '!' :: t => (findClose t).map (fun p => (true, p.1, p.2))
  | ']' :: t => (findClose t).map (fun p => (false, ']' :: p.1, p.2))
  | t => (findClose t).map (fun p => (false, p.1, p.2))

theorem classSplit_rest_lt : ∀ {ps : List Char} {r : Bool × List Char × List Char},
    classSplit ps = some r → r.2.2.length < ps.length := by
  intro ps r h
  unfold classSplit at h
  split at h <;>
    · rcases Option.map_eq_some'.mp h with ⟨q, hq, rfl⟩
      have := findClose_rest_lt hq
      simp only [List.length_cons]
      omega

/-- Embedding of `fnmatch.translate`'s tokenisation of a glob pattern:
`*` and `?` become wildcard tokens; `[` opens a character class split off
by `classSplit`; an unterminated `[` is a literal character; every other
character is literal.  The fuel argument only serves structural
termination: every step consumes at least one character and exactly one
unit of fuel, so `compileGlob`'s initial fuel `l.length` never runs out. -/
def compileGlobF : Nat → List Char → List GlobTok
  | _, [] => []
  | 0, _ :: _ => []
  | fuel + 1, c :: ps =>
    if c = '*' then .star :: compileGlobF fuel ps
    else if c = '?' then .qmark :: compileGlobF fuel ps
    else if c = '[' then
      match classSplit ps with
      | some (neg, chunk, rest) => .cls neg chunk :: compileGlobF fuel rest
      | none => .lit '[' :: compileGlobF fuel ps
    else .lit c :: compileGlobF fuel ps

/-- Compiled form of a glob pattern. -/
def compileGlob (l : List Char) : List GlobTok :=
  compileGlobF l.length l

/-- Membership of a character in a class chunk: `x-y` denotes an inclusive
range when a character follows the dash, otherwise characters (including an
edge dash) are literal members. -/
def classMatch : List Char → Char → Bool
  | [], _ => false
  | a :: '-' :: b :: rest, c => (a ≤ c && c ≤ b) || classMatch rest c
  | a :: rest, c => (a = c) || classMatch rest c

/-- Backtracking matcher for a compiled glob over the characters of one
path segment; the whole segment must be consumed (`fnmatch` matches against
the full string).  Every step consumes at least one unit of the combined
length of the two arguments and exactly one unit of fuel, so
`toksMatch`'s initial fuel never runs out. -/
def toksMatchF : Nat → List Char → List GlobTok → Bool
  | 0, _, _ => false
  | fuel + 1, name, toks =>
    match name, toks with
    | name, [] => name.isEmpty
    | name, .star :: ts =>
      toksMatchF fuel name ts ||
        (match name with
         | [] => false
         | _ :: nt => toksMatchF fuel nt (.star :: ts))
    | [], .qmark :: _ => false
    | _ :: nt, .qmark :: ts => toksMatchF fuel nt ts
    | [], .lit _ :: _ => false
    | c :: nt, .lit a :: ts => c = a && toksMatchF fuel nt ts
    | [], .cls _ _ :: _ => false
    | c :: nt, .cls neg chunk :: ts => (classMatch chunk c != neg) && toksMatchF fuel nt ts

/-- Matcher for a compiled glob against a full segment. -/
def toksMatch (name : List Char) (toks : List GlobTok) : Bool :=
  toksMatchF (name.length + toks.length + 1) name toks

/-- Model of `fnmatch.fnmatch(name, pat)` on POSIX, over segment
characters. -/
def fnmatchL (name pat : List Char) : Bool :=
  toksMatch name (compileGlob pat)

/-! ## `drift_detector._match_glob` and friends -/

/-- The inner `_match(pp, pat)` recursion of `_match_glob`: an empty
pattern requires an empty path; a `**` component tries to consume every
possible number of leading path segments (zero included) before matching
the rest; otherwise the head segments must `fnmatch` and the tails must
match.  Each step consumes one pattern component and one unit of fuel, so
`matchParts`'s initial fuel `pat.length + 1` never runs out. -/
def matchPartsF : Nat → List (List Char) → List (List Char) → Bool
  | 0, _, _ => false
  | fuel + 1, pp, pat =>
    match pat with
    | [] => pp.isEmpty
    | g :: pats =>
      if g = ['*', '*'] then
        (List.range (pp.length + 1)).any fun i => matchPartsF fuel (pp.drop i) pats
      else
        match pp with
        | [] => false
        | p :: pps => fnmatchL p g && matchPartsF fuel pps pats

/-- The `_match` recursion at its intended fuel. -/
def matchParts (pp pat : List (List Char)) : Bool :=
  matchPartsF (pat.length + 1) pp pat

/-- Embedding of `drift_detector._match_glob(path, pattern)`: both
arguments are normalised by `Path(...).as_posix().split("/")` and the
segment lists are matched by the `_match` recursion. -/
def matchGlob (path pattern : String) : Bool :=
  matchParts (posixPartsL path.data) (posixPartsL pattern.data)

/-- Embedding of `drift_detector.match_files_to_tracks(files, tracks)`:
each file is appended once when the inner pattern loop (which `break`s on
the first hit) finds any matching track glob. -/
def match_files_to_tracks : List String → List String → List String
  | [], _ => []
  | f :: fs, tracks =>
    if tracks.any (fun pattern => matchGlob f pattern) then
      f :: match_files_to_tracks fs tracks
    else
      match_files_to_tracks fs tracks

/-- One memory file of the `.serena/memories` directory as `scan_memories`
sees it after `read_text` and frontmatter extraction: the filename stem,
the `tracks:` glob list (empty when the field is absent or not a list) and
the `updated:` field rendered as a string. -/
structure MemoryFile where
  stem : String
  tracks : List String
  updated : String
deriving Repr, DecidableEq

/-- Embedding of `drift_detector.scan_memories`: the input list stands for
the directory's `*.md` files in the order produced by `sorted(...)`; a
memory with no tracks is skipped, otherwise it is reported stale exactly
when some modified file matches its tracks, citing the first five matches
and the `updated` stamp. -/
def scan_memories (mems : List MemoryFile) (modified_files : List String) :
    List (String × List String × String) :=
  mems.filterMap fun m =>
    if m.tracks = [] then none
    else if match_files_to_tracks modified_files m.tracks = [] then none
    else some (m.stem, (match_files_to_tracks modified_files m.tracks).take 5, m.updated)

/-! ## Git change-set queries

`subprocess.run` is modelled as an `Except` value: `.error` stands for any
raised exception (`FileNotFoundError` when the git binary is missing, a
timeout, or any other `Exception` the bare `except` clause catches) and
`.ok stdout` for a completed process with its captured standard output
(a git failure such as "not a repository" completes with empty stdout). -/

/-- An exception raised by the subprocess invocation. -/
inductive SubprocError where
  | binaryNotFound : SubprocError
  | timeout : SubprocError
  | other : SubprocError
deriving Repr, DecidableEq

/-- Embedding of `drift_detector.get_recent_modified_files`: on any
exception return `[]`, otherwise the stripped non-empty lines of
`git log -N --name-only --format=` output, in order. -/
def get_recent_modified_files (gitLog : Except SubprocError String) : List String :=
  match gitLog with
  | .error _ => []
  | .ok out => ((splitlines out).map pyStrip).filter (fun l => l ≠ "")

/-- Embedding of `drift_detector.get_session_written_files`: on any
exception from either `git diff` invocation return `[]`, otherwise the
stripped non-empty lines of both outputs, deduplicated (the Python source
builds a `set`, whose iteration order is implementation defined; the model
fixes first-occurrence order, which no claim depends on). -/
def get_session_written_files (diffHead diffCached : Except SubprocError String) :
    List String :=
  match diffHead, diffCached with
  | .ok o1, .ok o2 =>
    (((splitlines o1 ++ splitlines o2).map pyStrip).filter (fun f => f ≠ "")).eraseDups
  | _, _ => []

/-! ## Exit codes of the `scan` and `check` subcommands

`cmd_scan` ends in `sys.exit(1 if stale else 0)` and `cmd_check` in
`sys.exit(1)` for a missing argument or missing memory, `sys.exit(0)` for a
track-less or up-to-date memory and `sys.exit(1)` for a stale one.  Neither
function reads any environment variable, so the process environment is an
explicit (unused) parameter of the models. -/

/-- Exit code of `drift_detector.py scan`: 1 exactly when `scan_memories`
reports at least one stale memory.  The `_env` parameter is the process
environment, which the source never consults. -/
def cmd_scan_exitCode (_env : List (String × String)) (mems : List MemoryFile)
    (modified_files : List String) : Nat :=
  if scan_memories mems modified_files = [] then 0 else 1

/-- Exit code of `drift_detector.py check`: 1 for a missing memory-name
argument, 1 when the named memory file does not exist (`mem = none`),
0 when it has no tracks, and otherwise 1 exactly when some recently
modified file matches its tracks.  The `_env` parameter is the process
environment, which the source never consults. -/
def cmd_check_exitCode (_env : List (String × String)) (args : List String)
    (mem : Option MemoryFile) (modified_files : List String) : Nat :=
  match args with
  | [] => 1
  | _ :: _ =>
    match mem with
    | none => 1
    | some m =>
      if m.tracks = [] then 0
      else if match_files_to_tracks modified_files m.tracks = [] then 0
      else 1

/-! ## Frontmatter extraction

`extract_frontmatter` matches `^---\n(.*?)\n---\n` (anchored, dot-all,
non-greedy, so the block body ends at the first `\n---\n`) and feeds the
body to `yaml.safe_load`, mapping a `YAMLError` — and a `None` result,
via `or {}` — to the empty dict.  The PyYAML parser is an explicit
parameter: `.error` stands for a raised `YAMLError`, `.ok none` for a
parse that yields `None` and `.ok (some d)` for a parsed mapping. -/

/-- A parsed YAML scalar or list value, as far as the drift detector
inspects them. -/
inductive YamlValue where
  | scalar : String → YamlValue
  | list : List String → YamlValue
deriving Repr, DecidableEq

/-- A parsed YAML mapping. -/
abbrev YamlDict := List (String × YamlValue)

/-- Index of the first occurrence of `needle` as a contiguous sublist of
`hay`. -/
def findSub (needle : List Char) : List Char → Option Nat
  | [] => if needle = [] then some 0 else none
  | h :: t =>
    if needle.isPrefixOf (h :: t) then some 0
    else (findSub needle t).map (· + 1)

/-- The frontmatter block captured by `re.match` of `---` newline,
non-greedy dot-all group, newline `---` newline: `none` when the regex
does not match, otherwise the group between the opening `---` line and the
first closing `---` line. -/
def frontmatterBlock (content : String) : Option String :=
  match content.data with
  | '-' :: '-' :: '-' :: '\n' :: rest =>
    match findSub ['\n', '-', '-', '-', '\n'] rest with
    | none => none
    | some i => some ⟨rest.take i⟩
  | _ => none

/-- Embedding of `drift_detector.extract_frontmatter`: no regex match,
a `YAMLError` and a `None` parse all yield the empty dict. -/
def extract_frontmatter (parseYaml : String → Except Unit (Option YamlDict))
    (content : String) : YamlDict :=
  match frontmatterBlock content with
  | none => []
  | some body =>
    match parseYaml body with
    | .error _ => []
    | .ok none => []
    | .ok (some d) => d

/-! ## Registry-based staleness engine (spec-modelled)

The mtime-comparing staleness engine runs in the pre-push hook script and
registry module that `install_hooks.py` references by path
(`scripts/hooks/skill_staleness.py`); that source is not part of the
analysed tree, so the engine is modelled from §4.2/§4.4 of the
specification. -/

/-- Modelled from the spec: a Change Record — a file path plus the instant
it was last modified. -/
structure ChangeRecord where
  path : String
  mtime : Nat
deriving Repr, DecidableEq

/-- Modelled from the spec: one Registry Entry — identifier, territory
(glob patterns) and the artifact path (the fields the staleness engine
reads). -/
structure RegistryEntry where
  id : String
  territory : List String
  skill_path : String
deriving Repr, DecidableEq

/-- Modelled from the spec: one Staleness Finding — the entry reported
stale, the single most relevant triggering file, and the artifact
modification instant it was checked against. -/
structure StalenessFinding where
  id : String
  file : String
  artifactMtime : Nat
deriving Repr, DecidableEq

/-- Modelled from the spec: `find_owner(path)` applies the Ownership
Matcher against every entry's territory in registry order; first match
wins. -/
def find_owner (registry : List RegistryEntry) (path : String) : Option String :=
  (registry.find? (fun en => en.territory.any (fun pat => matchGlob path pat))).map (·.id)

/-- Modelled from the spec: the relevant changed files of one entry — with
the global trigger active, the subset of the change set matching the
global trigger patterns; otherwise the subset whose `find_owner` resolves
to this entry's id. -/
def relevantChanges (registry : List RegistryEntry) (changeset : List ChangeRecord)
    (globalPats : List String) (globalActive : Bool) (en : RegistryEntry) :
    List ChangeRecord :=
  if globalActive then
    changeset.filter (fun c => globalPats.any (fun pat => matchGlob c.path pat))
  else
    changeset.filter (fun c => find_owner registry c.path = some en.id)

/-- The change record with the greatest modification instant, ties broken
by first-encountered order. -/
def mostRecent (l : List ChangeRecord) : Option ChangeRecord :=
  l.foldl
    (fun acc c =>
      match acc with
      | none => some c
      | some b => if b.mtime < c.mtime then some c else acc)
    none

/-- Modelled from the spec: the per-entry staleness decision of
`evaluate` — skip when the relevant set is empty or the artifact file is
missing on disk (`artifactMtime` returns `none`), otherwise report the
entry stale exactly when some relevant file's modification instant is
strictly later than the artifact's, citing the most relevant triggering
file. -/
def evaluateEntry (registry : List RegistryEntry) (changeset : List ChangeRecord)
    (globalPats : List String) (globalActive : Bool)
    (artifactMtime : String → Option Nat) (en : RegistryEntry) :
    Option StalenessFinding :=
  if relevantChanges registry changeset globalPats globalActive en = [] then none
  else
    match artifactMtime en.skill_path with
    | none => none
    | some t0 =>
      match mostRecent ((relevantChanges registry changeset globalPats globalActive
          en).filter (fun c => t0 < c.mtime)) with
      | none => none
      | some c => some ⟨en.id, c.path, t0⟩

/-- Modelled from the spec: `evaluate(registry, changeset,
global_trigger_patterns, global_trigger_active)` — findings are emitted in
registry entry order. -/
def evaluate (registry : List RegistryEntry) (changeset : List ChangeRecord)
    (globalPats : List String) (globalActive : Bool)
    (artifactMtime : String → Option Nat) : List StalenessFinding :=
  registry.filterMap (evaluateEntry registry changeset globalPats globalActive artifactMtime)

/-! ## Protected-region merger (spec-modelled)

No protected-region merge exists in the analysed tree (the skill generator
overwrites `SKILL.md` wholesale on `--update`, sentinel comments included),
so the merger is modelled from §4.5 of the specification.  Artifact content
is modelled as its list of lines; byte identity of contents is equality of
the line lists. -/

/-- The error of an unbalanced or missing sentinel pair. -/
inductive MergeError where
  | unbalancedSentinels : MergeError
deriving Repr, DecidableEq

/-- Split a line list at the first occurrence of the line `p`: returns the
lines before it (not containing `p`) and the lines after it. -/
def breakAt (p : String) : List String → Option (List String × List String)
  | [] => none
  | x :: xs =>
    if x = p then some ([], xs)
    else (breakAt p xs).map (fun q => (x :: q.1, q.2))

/-- Modelled from the spec: `merge(existingContent, freshContent,
startSentinel, endSentinel)` over line lists.  The fresh content must
contain the sentinel pair (its first start line followed by a first end
line); when existing content is absent the fresh content is returned
unchanged; when the existing content has a start sentinel, the region
strictly between it and the first end sentinel after it replaces the fresh
placeholder region; a start without a following end — or an end with no
start at all — fails with the unbalanced-sentinel error. -/
def merge (existing : Option (List String)) (fresh : List String)
    (startS endS : String) : Except MergeError (List String) :=
  match breakAt startS fresh with
  | none => .error .unbalancedSentinels
  | some (fpre, frest) =>
    match breakAt endS frest with
    | none => .error .unbalancedSentinels
    | some (_, fpost) =>
      match existing with
      | none => .ok fresh
      | some ex =>
        match breakAt startS ex with
        | none => if ex.contains endS then .error .unbalancedSentinels else .ok fresh
        | some (_, erest) =>
          match breakAt endS erest with
          | none => .error .unbalancedSentinels
          | some (ereg, _) => .ok (fpre ++ startS :: ereg ++ endS :: fpost)

/-! ## Auxiliary data for concrete instantiations -/

/-- A path segment with no glob metacharacter (`*`, `?`, `[`): `fnmatch`
treats every character of such a segment literally. -/
def globSegLiteral (s : List Char) : Bool :=
  s.all (fun c => !(c = '*' || c = '?' || c = '['))

/-- A PyYAML run that raises `YAMLError` on the input it is given — the
behaviour of `yaml.safe_load` on a malformed frontmatter block such as
`tracks: [`. -/
def failingYamlParse : String → Except Unit (Option YamlDict) :=
  fun _ => .error ()

/-- A one-entry registry: `svc1` tracks `svc1/**` and owns
`svc1/SKILL.md` (the spec's end-to-end staleness example). -/
def registry₁ : List RegistryEntry := [⟨"svc1", ["svc1/**"], "svc1/SKILL.md"⟩]

/-- A change set containing `svc1/main.py` modified at instant 10. -/
def changeset₁ : List ChangeRecord := [⟨"svc1/main.py", 10⟩]

/-- A change set containing `svc1/main.py` modified at instant 3, earlier
than the artifact instant below. -/
def changeset₂ : List ChangeRecord := [⟨"svc1/main.py", 3⟩]

/-- An on-disk state in which `svc1/SKILL.md` exists with modification
instant 5. -/
def fsm₁ : String → Option Nat := fun p => if p = "svc1/SKILL.md" then some 5 else none

/-- A memory tracking `svc1/**`, for concrete scan instantiations. -/
def mem₁ : MemoryFile := ⟨"api_docs", ["svc1/**"], "2026-01-01"⟩

/-- Freshly regenerated artifact content with the placeholder protected
region. -/
def fresh₀ : List String :=
  ["# Service Doc", "<!-- SEMANTIC_START -->", "[placeholder]",
   "<!-- SEMANTIC_END -->", "## Tail"]

/-- Existing artifact content whose protected region was human-edited. -/
def ex₀ : List String :=
  ["old prologue", "<!-- SEMANTIC_START -->", "Hello world",
   "<!-- SEMANTIC_END -->", "old tail"]

/-- The merge of `ex₀`'s protected region into `fresh₀`. -/
def out₀ : List String :=
  ["# Service Doc", "<!-- SEMANTIC_START -->", "Hello world",
   "<!-- SEMANTIC_END -->", "## Tail"]

/-! ## Lemmas about `breakAt` -/

theorem breakAt_eq_some : ∀ {p : String} {l a b : List String},
    breakAt p l = some (a, b) → l = a ++ p :: b ∧ p ∉ a := by
  intro p l
  induction l with
  | nil => intro a b h; simp [breakAt] at h
  | cons x xs ih =>
    intro a b h
    unfold breakAt at h
    split at h
    · simp only [Option.some.injEq, Prod.mk.injEq] at h
      obtain ⟨rfl, rfl⟩ := h
      simp_all
    · rcases Option.map_eq_some'.mp h with ⟨⟨r1, r2⟩, hr, heq⟩
      simp only [Prod.mk.injEq] at heq
      obtain ⟨rfl, rfl⟩ := heq
      obtain ⟨h1, h2⟩ := ih hr
      refine ⟨by simp [h1], ?_⟩
      simp only [List.mem_cons, not_or]
      exact ⟨fun hp => by simp_all, h2⟩

theorem breakAt_append (p : String) (a b : List String) (ha : p ∉ a) :
    breakAt p (a ++ p :: b) = some (a, b) := by
  induction a with
  | nil => simp [breakAt]
  | cons x xs ih =>
    have hx : x ≠ p := fun h => ha (by simp [h])
    have hxs : p ∉ xs := fun h => ha (by simp [h])
    simp only [List.cons_append]
    unfold breakAt
    rw [if_neg hx, ih hxs]
    rfl

/-- Evaluation of `merge` when every sentinel lookup succeeds. -/
theorem merge_some_eval {startS endS : String}
    {ex fresh fpre frest freg fpost epre erest ereg epost : List String}
    (hbs : breakAt startS fresh = some (fpre, frest))
    (hbe : breakAt endS frest = some (freg, fpost))
    (hxs : breakAt startS ex = some (epre, erest))
    (hxe : breakAt endS erest = some (ereg, epost)) :
    merge (some ex) fresh startS endS = .ok (fpre ++ startS :: ereg ++ endS :: fpost) := by
  unfold merge
  simp only [hbs, hbe, hxs, hxe]

/-! ## Lemmas about the glob matcher -/

theorem matchParts_nil (pp : List (List Char)) : matchParts pp [] = pp.isEmpty := rfl

theorem matchParts_doublestar (pp pats : List (List Char)) :
    matchParts pp (['*', '*'] :: pats) =
      (List.range (pp.length + 1)).any (fun i => matchParts (pp.drop i) pats) := rfl

theorem matchParts_cons_nil {g : List Char} (hg : g ≠ ['*', '*'])
    (pats : List (List Char)) : matchParts [] (g :: pats) = false := by
  show matchPartsF (pats.length + 1 + 1) [] (g :: pats) = false
  unfold matchPartsF
  simp only
  rw [if_neg hg]

theorem matchParts_cons {g : List Char} (hg : g ≠ ['*', '*'])
    (p : List Char) (pps pats : List (List Char)) :
    matchParts (p :: pps) (g :: pats) = (fnmatchL p g && matchParts pps pats) := by
  show matchPartsF (pats.length + 1 + 1) (p :: pps) (g :: pats) = _
  unfold matchPartsF
  simp only
  rw [if_neg hg]
  rfl

theorem compileGlobF_literal : ∀ (l : List Char) (fuel : Nat), l.length ≤ fuel →
    globSegLiteral l = true → compileGlobF fuel l = l.map GlobTok.lit := by
  intro l
  induction l with
  | nil => intro fuel _ _; cases fuel <;> rfl
  | cons c ps ih =>
    intro fuel hfuel hlit
    unfold globSegLiteral at hlit
    rw [List.all_cons, Bool.and_eq_true] at hlit
    obtain ⟨hc, hps⟩ := hlit
    simp only [Bool.not_eq_true', Bool.or_eq_false_iff, decide_eq_false_iff_not] at hc
    obtain ⟨⟨hstar, hq⟩, hbr⟩ := hc
    cases fuel with
    | zero => simp at hfuel
    | succ f =>
      unfold compileGlobF
      rw [if_neg hstar, if_neg hq, if_neg hbr]
      simp only [List.map_cons, List.cons.injEq, true_and]
      exact ih f (by simp at hfuel; omega) (by simpa [globSegLiteral] using hps)

theorem toksMatchF_lit_self : ∀ (l : List Char) (fuel : Nat), 2 * l.length < fuel →
    toksMatchF fuel l (l.map GlobTok.lit) = true := by
  intro l
  induction l with
  | nil =>
    intro fuel hfuel
    cases fuel with
    | zero => simp at hfuel
    | succ f => rfl
  | cons c ps ih =>
    intro fuel hfuel
    cases fuel with
    | zero => simp at hfuel
    | succ f =>
      unfold toksMatchF
      simp only [List.map_cons]
      have hih := ih f (by simp at hfuel; omega)
      simp [hih]

theorem toksMatchF_star : ∀ (name : List Char) (fuel : Nat), name.length + 1 < fuel →
    toksMatchF fuel name [GlobTok.star] = true := by
  intro name
  induction name with
  | nil =>
    intro fuel hfuel
    match fuel, hfuel with
    | fuel + 2, _ => rfl
  | cons c nt ih =>
    intro fuel hfuel
    cases fuel with
    | zero => simp at hfuel
    | succ f =>
      unfold toksMatchF
      have hih := ih f (by simp at hfuel; omega)
      simp [hih]

theorem fnmatchL_lit_self {d : List Char} (hd : globSegLiteral d = true) :
    fnmatchL d d = true := by
  unfold fnmatchL compileGlob toksMatch
  rw [compileGlobF_literal d d.length le_rfl hd]
  rw [List.length_map]
  exact toksMatchF_lit_self d (d.length + d.length + 1) (by omega)

theorem fnmatchL_star (p : List Char) : fnmatchL p ['*'] = true := by
  unfold fnmatchL compileGlob toksMatch
  show toksMatchF (p.length + 1 + 1) p [GlobTok.star] = true
  exact toksMatchF_star p (p.length + 2) (by omega)

theorem globSegLiteral_ne_doublestar {d : List Char} (hd : globSegLiteral d = true) :
    d ≠ ['*', '*'] := by
  intro h
  subst h
  simp [globSegLiteral] at hd

theorem drop_pred_singleton : ∀ (l : List (List Char)), l ≠ [] →
    ∃ x, l.drop (l.length - 1) = [x] := by
  intro l
  induction l with
  | nil => intro h; exact absurd rfl h
  | cons a t ih =>
    intro _
    cases t with
    | nil => exact ⟨a, rfl⟩
    | cons b t' =>
      obtain ⟨x, hx⟩ := ih (by simp)
      refine ⟨x, ?_⟩
      simpa using hx

/-! ## Lemmas about `match_files_to_tracks` -/

theorem match_files_to_tracks_eq_filter (files tracks : List String) :
    match_files_to_tracks files tracks =
      files.filter (fun f => tracks.any (fun pattern => matchGlob f pattern)) := by
  induction files with
  | nil => rfl
  | cons f fs ih =>
    unfold match_files_to_tracks
    rw [List.filter_cons]
    split <;> simp_all

/-! ## Lemmas about the staleness engine -/

theorem mostRecent_some_of_ne_nil : ∀ {l : List ChangeRecord}, l ≠ [] →
    ∃ m, mostRecent l = some m := by
  have aux : ∀ (l : List ChangeRecord) (b : ChangeRecord),
      ∃ m, l.foldl
        (fun acc c =>
          match acc with
          | none => some c
          | some b => if b.mtime < c.mtime then some c else acc)
        (some b) = some m := by
    intro l
    induction l with
    | nil => intro b; exact ⟨b, rfl⟩
    | cons c t ih =>
      intro b
      simp only [List.foldl_cons]
      split <;> apply ih
  intro l hl
  cases l with
  | nil => exact absurd rfl hl
  | cons c t => exact aux t c

theorem mostRecent_mem : ∀ {l : List ChangeRecord} {m : ChangeRecord},
    mostRecent l = some m → m ∈ l := by
  have aux : ∀ (l : List ChangeRecord) (b m : ChangeRecord),
      l.foldl
        (fun acc c =>
          match acc with
          | none => some c
          | some b => if b.mtime < c.mtime then some c else acc)
        (some b) = some m → m = b ∨ m ∈ l := by
    intro l
    induction l with
    | nil =>
      intro b m h
      simp only [List.foldl_nil, Option.some.injEq] at h
      exact Or.inl h.symm
    | cons c t ih =>
      intro b m h
      simp only [List.foldl_cons] at h
      split at h
      · rcases ih c m h with h' | h' <;> simp [h']
      · rcases ih b m h with h' | h' <;> simp [h']
  intro l m h
  cases l with
  | nil => simp [mostRecent] at h
  | cons c t =>
    unfold mostRecent at h
    simp only [List.foldl_cons] at h
    rcases aux t c m h with h' | h' <;> simp [h']

theorem evaluateEntry_id {registry changeset globalPats globalActive artifactMtime en f}
    (h : evaluateEntry registry changeset globalPats globalActive artifactMtime en =
      some f) : f.id = en.id := by
  unfold evaluateEntry at h
  split at h
  · simp at h
  · split at h
    · simp at h
    · split at h
      · simp at h
      · simp only [Option.some.injEq] at h
        subst h
        rfl

/-! ## Claim theorems -/

/-- C1: for every registry entry whose relevant changed-file set is
non-empty and whose artifact file exists on disk, the staleness evaluation
reports the entry as stale if and only if at least one relevant changed
file's modification instant is strictly later than the artifact's on-disk
modification instant (spec-modelled staleness engine). -/
theorem evaluate_stale_iff
    (registry : List RegistryEntry) (changeset : List ChangeRecord)
    (globalPats : List String) (globalActive : Bool)
    (artifactMtime : String → Option Nat) (en : RegistryEntry) (t0 : Nat)
    (hNodup : (registry.map RegistryEntry.id).Nodup)
    (hMem : en ∈ registry)
    (hRel : relevantChanges registry changeset globalPats globalActive en ≠ [])
    (hArt : artifactMtime en.skill_path = some t0) :
    (∃ f ∈ evaluate registry changeset globalPats globalActive artifactMtime,
        f.id = en.id) ↔
      ∃ c ∈ relevantChanges registry changeset globalPats globalActive en,
        t0 < c.mtime := by
  constructor
  · rintro ⟨f, hf, hfid⟩
    obtain ⟨en', hen', heval⟩ := List.mem_filterMap.mp hf
    have hid : en'.id = en.id := (evaluateEntry_id heval).symm.trans hfid
    have heq : en' = en := List.inj_on_of_nodup_map hNodup hen' hMem hid
    subst heq
    unfold evaluateEntry at heval
    rw [if_neg hRel] at heval
    simp only [hArt] at heval
    split at heval
    · simp at heval
    next c hmr =>
      have hcmem := mostRecent_mem hmr
      rw [List.mem_filter] at hcmem
      exact ⟨c, hcmem.1, by simpa using hcmem.2⟩
  · rintro ⟨c, hc, hlt⟩
    have hfil : (relevantChanges registry changeset globalPats globalActive en).filter
        (fun c => t0 < c.mtime) ≠ [] := by
      intro hnil
      rw [List.filter_eq_nil_iff] at hnil
      exact hnil c hc (by simpa using hlt)
    obtain ⟨m, hm⟩ := mostRecent_some_of_ne_nil hfil
    refine ⟨⟨en.id, m.path, t0⟩, List.mem_filterMap.mpr ⟨en, hMem, ?_⟩, rfl⟩
    unfold evaluateEntry
    rw [if_neg hRel]
    simp only [hArt, hm]

/-- C1 witness: in the spec's end-to-end example — entry `svc1` tracking
`svc1/**`, artifact mtime 5 — a change to `svc1/main.py` at instant 10
produces a finding for `svc1`, while the same change at instant 3 produces
none. -/
theorem evaluate_stale_iff_witness :
    (∃ f ∈ evaluate registry₁ changeset₁ [] false fsm₁, f.id = "svc1") ∧
    ¬(∃ f ∈ evaluate registry₁ changeset₂ [] false fsm₁, f.id = "svc1") := by
  constructor
  · exact (evaluate_stale_iff registry₁ changeset₁ [] false fsm₁
      ⟨"svc1", ["svc1/**"], "svc1/SKILL.md"⟩ 5
      (by decide) (by decide) (by decide) (by decide)).mpr (by decide)
  · intro h
    exact absurd ((evaluate_stale_iff registry₁ changeset₂ [] false fsm₁
      ⟨"svc1", ["svc1/**"], "svc1/SKILL.md"⟩ 5
      (by decide) (by decide) (by decide) (by decide)).mp h) (by decide)

/-- C2: a `**` pattern component matches zero or more whole path segments
at its position, evaluated with backtracking: matching `** :: pats` against
`pp` succeeds exactly when some (possibly empty) prefix of `pp` can be
consumed so that the rest matches `pats`; concretely, `a/**/b.ts` matches
`a/b.ts` and `a/x/y/b.ts`, and `cli/src/**/*.ts` matches
`cli/src/core/diff.ts` but not `docs/README.md`. -/
theorem doublestar_matches_zero_or_more :
    (∀ (pp pats : List (List Char)),
      matchParts pp (['*', '*'] :: pats) = true ↔
        ∃ i ≤ pp.length, matchParts (pp.drop i) pats = true) ∧
    matchGlob "a/b.ts" "a/**/b.ts" = true ∧
    matchGlob "a/x/y/b.ts" "a/**/b.ts" = true ∧
    matchGlob "cli/src/core/diff.ts" "cli/src/**/*.ts" = true ∧
    matchGlob "docs/README.md" "cli/src/**/*.ts" = false := by
  refine ⟨?_, by decide, by decide, by decide, by decide⟩
  intro pp pats
  rw [matchParts_doublestar]
  simp only [List.any_eq_true, List.mem_range, Nat.lt_succ_iff]

/-- C3 counterexample: `_match_glob` has no textual-prefix fallback.  The
path `ab` is textually prefixed by the directory segment `a` of the pattern
`a/**` yet does not match, and `[a]/x` lies textually under the directory
segment `[a]` of `[a]/**` yet does not match (the segment is interpreted
as a character class, not as text). -/
theorem dirPrefix_fallback_counterexample :
    matchGlob "ab" "a/**" = false ∧
    matchGlob "[a]/x" "[a]/**" = false ∧
    List.isPrefixOf "a".data "ab".data = true ∧
    List.isPrefixOf "[a]/".data "[a]/x".data = true := by decide

/-- C3 (amended): for a pattern `dir/**` or `dir/**/*` whose directory
segments contain no glob metacharacter, every path consisting of those
directory segments followed by at least one further segment matches,
whatever its file extension; this is plain `**` glob semantics, not a
separate textual-prefix fallback. -/
theorem dirPrefix_matches_of_literal :
    ∀ (ds rest : List (List Char)), (∀ d ∈ ds, globSegLiteral d = true) → rest ≠ [] →
      matchParts (ds ++ rest) (ds ++ [['*', '*']]) = true ∧
      matchParts (ds ++ rest) (ds ++ [['*', '*'], ['*']]) = true := by
  intro ds
  induction ds with
  | nil =>
    intro rest _ hrest
    simp only [List.nil_append]
    constructor
    · rw [matchParts_doublestar, List.any_eq_true]
      refine ⟨rest.length, List.mem_range.mpr (by omega), ?_⟩
      simp only [List.drop_length]
      rfl
    · rw [matchParts_doublestar, List.any_eq_true]
      obtain ⟨x, hx⟩ := drop_pred_singleton rest hrest
      refine ⟨rest.length - 1, List.mem_range.mpr (by omega), ?_⟩
      simp only [hx]
      rw [matchParts_cons (by decide) x [] []]
      simp [fnmatchL_star, matchParts_nil]
  | cons d ds ih =>
    intro rest hlit hrest
    have hd : globSegLiteral d = true := hlit d (by simp)
    have hds : ∀ d' ∈ ds, globSegLiteral d' = true := fun d' h' => hlit d' (by simp [h'])
    have hne := globSegLiteral_ne_doublestar hd
    obtain ⟨ih1, ih2⟩ := ih rest hds hrest
    constructor
    · rw [List.cons_append, List.cons_append, matchParts_cons hne]
      simp [fnmatchL_lit_self hd, ih1]
    · rw [List.cons_append, List.cons_append, matchParts_cons hne]
      simp [fnmatchL_lit_self hd, ih2]

/-- C3 witness: the amended statement at the directory `a` and the path
`a/x.md`, for both pattern shapes. -/
theorem dirPrefix_matches_of_literal_witness :
    matchParts ([['a']] ++ [['x', '.', 'm', 'd']]) ([['a']] ++ [['*', '*']]) = true ∧
    matchParts ([['a']] ++ [['x', '.', 'm', 'd']]) ([['a']] ++ [['*', '*'], ['*']]) = true :=
  dirPrefix_matches_of_literal [['a']] [['x', '.', 'm', 'd']] (by decide) (by decide)

/-- C4 counterexample: `get_recent_modified_files` does not deduplicate —
a file named by two of the last N commits appears twice in the result. -/
theorem recent_files_dup_counterexample :
    get_recent_modified_files (Except.ok "a.py\nb.py\n\na.py\n") =
      ["a.py", "b.py", "a.py"] ∧
    ¬((get_recent_modified_files (Except.ok "a.py\nb.py\n\na.py\n")).count "a.py" ≤ 1) := by
  decide

/-- C4 (amended): the Recent-N query returns every file touched by any of
the last N commits — a path is in the result exactly when it is the
non-empty stripped form of some output line — but without deduplication:
each file appears once per line naming it, in output order. -/
theorem recent_files_lines :
    ∀ (out f : String) (e : SubprocError),
      (f ∈ get_recent_modified_files (.ok out) ↔
        f ≠ "" ∧ ∃ l ∈ splitlines out, pyStrip l = f) ∧
      get_recent_modified_files (.error e) = [] := by
  intro out f e
  constructor
  · unfold get_recent_modified_files
    simp only [List.mem_filter, List.mem_map]
    constructor
    · rintro ⟨⟨l, hl, rfl⟩, hne⟩
      exact ⟨by simpa using hne, l, hl, rfl⟩
    · rintro ⟨hne, l, hl, rfl⟩
      exact ⟨⟨l, hl, rfl⟩, by simpa using hne⟩
  · rfl

/-- C5: when the underlying git invocation fails — an exception such as a
missing binary or a timeout, or a failed process with empty output — both
the Recent-N query and the working-tree query return the empty list rather
than propagating an error. -/
theorem changeset_queries_fail_empty :
    ∀ (e : SubprocError) (r : Except SubprocError String),
      get_recent_modified_files (.error e) = [] ∧
      get_session_written_files (.error e) r = [] ∧
      get_session_written_files r (.error e) = [] ∧
      get_recent_modified_files (.ok "") = [] ∧
      get_session_written_files (.ok "") (.ok "") = [] := by
  intro e r
  refine ⟨rfl, ?_, ?_, rfl, rfl⟩ <;> cases r <;> rfl

/-- C6 counterexample: with an empty process environment — the strict-mode
variable unset — a `scan` that finds one stale memory exits with code 1,
not 0. -/
theorem cmd_scan_exit_counterexample :
    cmd_scan_exitCode [] [mem₁] ["svc1/main.py"] = 1 := by decide

/-- C6 (amended): `scan` exits 1 exactly when the scan reports at least
one stale memory, and `check` exits 1 on a missing argument, a missing
memory or a stale memory; neither exit code depends on the process
environment, because neither subcommand reads any environment variable
(the `SKILL_HOOK_STRICT` strict mode belongs to the pre-push hook wrapper,
which is not this CLI). -/
theorem cmd_exit_codes :
    ∀ (env env' : List (String × String)) (mems : List MemoryFile)
      (modified args : List String) (mem : Option MemoryFile),
      (cmd_scan_exitCode env mems modified = 1 ↔ scan_memories mems modified ≠ []) ∧
      cmd_scan_exitCode env mems modified = cmd_scan_exitCode env' mems modified ∧
      cmd_check_exitCode env args mem modified = cmd_check_exitCode env' args mem modified := by
  intro env env' mems modified args mem
  refine ⟨?_, rfl, rfl⟩
  unfold cmd_scan_exitCode
  split <;> simp_all

/-- C7 counterexample: a frontmatter block that fails YAML parsing and a
document with no frontmatter at all produce the identical empty mapping —
no error condition reaches the caller. -/
theorem frontmatter_swallow_counterexample :
    extract_frontmatter failingYamlParse "---\ntracks: [\n---\nBody" = [] ∧
    extract_frontmatter failingYamlParse "Body without frontmatter" = [] := by decide

/-- C7 (amended): whenever the frontmatter block is present but its parse
raises, `extract_frontmatter` silently returns the empty mapping — the
same value it returns when no frontmatter is present — so malformed
frontmatter is indistinguishable from absent frontmatter to the caller. -/
theorem frontmatter_error_swallowed :
    ∀ (parseYaml : String → Except Unit (Option YamlDict)) (content content2 body : String),
      frontmatterBlock content = some body →
      parseYaml body = .error () →
      frontmatterBlock content2 = none →
      extract_frontmatter parseYaml content = [] ∧
      extract_frontmatter parseYaml content2 = [] := by
  intro parseYaml content content2 body h1 h2 h3
  constructor
  · unfold extract_frontmatter
    simp only [h1, h2]
  · unfold extract_frontmatter
    simp only [h3]

/-- C7 witness: the amended statement at a concrete malformed block,
a concrete frontmatter-free document and a parser failing on the block. -/
theorem frontmatter_error_swallowed_witness :
    extract_frontmatter failingYamlParse "---\ntracks: [\n---\nBody" = [] ∧
    extract_frontmatter failingYamlParse "Body only" = [] :=
  frontmatter_error_swallowed failingYamlParse "---\ntracks: [\n---\nBody" "Body only"
    "tracks: [" (by decide) rfl (by decide)

/-- C8: re-running the protected-region merge with the first merge's output
as the new existing content against the same fresh content returns
byte-identical output, whenever the first merge succeeds (spec-modelled
merger; content is its list of lines). -/
theorem merge_idem {existing : Option (List String)} {fresh out : List String}
    {startS endS : String} (h : merge existing fresh startS endS = .ok out) :
    merge (some out) fresh startS endS = .ok out := by
  unfold merge at h
  split at h
  · simp at h
  next fpre frest hbs =>
    split at h
    · simp at h
    next freg fpost hbe =>
      obtain ⟨hfresh, hspre⟩ := breakAt_eq_some hbs
      obtain ⟨hfrest, hefreg⟩ := breakAt_eq_some hbe
      split at h
      · obtain rfl : fresh = out := by simpa using h
        calc merge (some fresh) fresh startS endS
            = .ok (fpre ++ startS :: freg ++ endS :: fpost) :=
              merge_some_eval hbs hbe hbs hbe
          _ = .ok fresh := by simp [hfresh, hfrest]
      next ex =>
        split at h
        next hxs =>
          split at h
          · simp at h
          next hc =>
            obtain rfl : fresh = out := by simpa using h
            calc merge (some fresh) fresh startS endS
                = .ok (fpre ++ startS :: freg ++ endS :: fpost) :=
                  merge_some_eval hbs hbe hbs hbe
              _ = .ok fresh := by simp [hfresh, hfrest]
        next epre erest hxs =>
          split at h
          · simp at h
          next ereg epost hxe =>
            obtain ⟨herest, hereg⟩ := breakAt_eq_some hxe
            obtain rfl : fpre ++ startS :: ereg ++ endS :: fpost = out := by simpa using h
            have hb1 : breakAt startS (fpre ++ startS :: ereg ++ endS :: fpost) =
                some (fpre, ereg ++ endS :: fpost) := by
              have := breakAt_append startS fpre (ereg ++ endS :: fpost) hspre
              simpa [List.cons_append, List.append_assoc] using this
            exact merge_some_eval hbs hbe hb1 (breakAt_append endS ereg fpost hereg)

/-- C8 witness: merging a human-edited region into a fresh template and
re-merging the result against the same fresh template reproduces the
output unchanged. -/
theorem merge_idem_witness :
    merge (some out₀) fresh₀ "<!-- SEMANTIC_START -->" "<!-- SEMANTIC_END -->" =
      .ok out₀ :=
  merge_idem
    (show merge (some ex₀) fresh₀ "<!-- SEMANTIC_START -->" "<!-- SEMANTIC_END -->" =
      .ok out₀ from rfl)

/-- C9: an empty territory tracks nothing — matching any file list against
an empty track list yields no matches, and every entry the staleness scan
reports comes from a memory whose track list is non-empty, so a memory
with empty tracks is never reported stale. -/
theorem empty_tracks_never_stale :
    (∀ files : List String, match_files_to_tracks files [] = []) ∧
    (∀ (mems : List MemoryFile) (modified : List String)
      (e : String × List String × String), e ∈ scan_memories mems modified →
        ∃ m ∈ mems, m.stem = e.1 ∧ m.tracks ≠ []) := by
  constructor
  · intro files
    rw [match_files_to_tracks_eq_filter]
    simp
  · intro mems modified e he
    obtain ⟨m, hm, hsome⟩ := List.mem_filterMap.mp he
    rcases Decidable.em (m.tracks = []) with ht | ht
    · simp [scan_memories, ht] at hsome
    · rw [if_neg ht] at hsome
      rcases Decidable.em (match_files_to_tracks modified m.tracks = []) with h2 | h2
      · simp [h2] at hsome
      · rw [if_neg h2] at hsome
        simp only [Option.some.injEq] at hsome
        subst hsome
        exact ⟨m, hm, rfl, ht⟩

/-- C9 witness: the two conjuncts at a concrete file list and a concrete
one-memory scan. -/
theorem empty_tracks_never_stale_witness :
    match_files_to_tracks ["anything.py"] [] = [] ∧
    ∃ m ∈ [mem₁], m.stem = ("api_docs", ["svc1/main.py"], "2026-01-01").1 ∧
      m.tracks ≠ [] :=
  ⟨empty_tracks_never_stale.1 ["anything.py"],
    empty_tracks_never_stale.2 [mem₁] ["svc1/main.py"]
      ("api_docs", ["svc1/main.py"], "2026-01-01") (by decide)⟩

/-- C10 counterexample: for an input list containing the same file twice,
the matcher returns that file twice — "each file appears at most once"
fails on inputs with duplicates. -/
theorem match_files_dedup_counterexample :
    match_files_to_tracks ["a.py", "a.py"] ["*.py"] = ["a.py", "a.py"] ∧
    ¬((match_files_to_tracks ["a.py", "a.py"] ["*.py"]).count "a.py" ≤ 1) := by decide

/-- C10 (amended): the matcher returns exactly the input files that match
some pattern, as a subsequence of the input (order preserved, one output
occurrence per input occurrence — so a file matching several patterns is
still included only once per input occurrence), and on duplicate-free
input each file appears at most once. -/
theorem match_files_subseq :
    ∀ (files tracks : List String),
      match_files_to_tracks files tracks =
        files.filter (fun f => tracks.any (fun pattern => matchGlob f pattern)) ∧
      (match_files_to_tracks files tracks).Sublist files ∧
      (∀ f ∈ match_files_to_tracks files tracks,
        tracks.any (fun pattern => matchGlob f pattern) = true) ∧
      (files.Nodup → (match_files_to_tracks files tracks).Nodup) := by
  intro files tracks
  rw [match_files_to_tracks_eq_filter]
  exact ⟨rfl, List.filter_sublist files, fun f hf => (List.mem_filter.mp hf).2,
    fun h => h.filter _⟩

/-- C10 witness: the subsequence and duplicate-freeness conclusions at a
concrete duplicate-free input. -/
theorem match_files_subseq_witness :
    (match_files_to_tracks ["svc1/main.py", "docs/README.md"] ["svc1/**"]).Sublist
      ["svc1/main.py", "docs/README.md"] ∧
    (match_files_to_tracks ["svc1/main.py", "docs/README.md"] ["svc1/**"]).Nodup := by
  have h := match_files_subseq ["svc1/main.py", "docs/README.md"] ["svc1/**"]
  exact ⟨h.2.1, h.2.2.2 (by decide)⟩

end DriftDetector
